import Mathlib

/-!
Shallow embedding of the `httpx` Go package (acln.ro/httpx).

Strings are modelled as lists of characters (`List Char`); the only byte
the Go code searches for is the ASCII slash, for which byte positions and
character positions coincide on the package's documented input domain.
An HTTP request is modelled by the fields the package reads or writes:
the mutable URL path and the immutable context chain, plus untouched
fields (`method`, `remoteAddr`, `userAgent`) needed to state frame
properties. A Go context is modelled as an association list:
`context.WithValue` prepends a binding, `Context.Value` returns the
first binding for a key, with `none` standing for Go's untyped nil.
The in-place mutation performed by `Shift` is modelled by explicit
state passing: `Shift` returns the segment together with the updated
request.
-/

namespace Httpx

/-- Model of Go `strings.IndexByte` on the characters of a path:
`some i` is the first index holding `b`; `none` plays the role of
Go's `-1` return value. -/
def indexByte : List Char → Char → Option Nat
  | [], _ => none
  | c :: cs, b => if c = b then some 0 else (indexByte cs b).map (· + 1)

/-- Embedding of the pure function `shift` from `httpx.go`: if the path
is `""` or `"/"` return `("", path)`; otherwise strip the leading
character, locate the first `'/'` in the remainder, and split there
(`path[:idx]`, `path[idx:]`), or return the whole remainder with an
empty rest when no `'/'` occurs. -/
def shift (path : List Char) : List Char × List Char :=
  if path = [] ∨ path = ['/'] then ([], path)
  else
    let p := path.drop 1
    match indexByte p '/' with
    | some idx => (p.take idx, p.drop idx)
    | none => (p, [])

/-- Bounds-checked variant of `shift`: every slicing operation of the Go
source (`path[1:]`, `path[:idx]`, `path[idx:]`) is guarded by the bound
Go enforces at run time, and a violated bound yields `none` (a panic in
Go). Used to state that `shift` never indexes out of bounds. -/
def shiftChecked (path : List Char) : Option (List Char × List Char) :=
  if path = [] ∨ path = ['/'] then some ([], path)
  else if 1 ≤ path.length then
    let p := path.drop 1
    match indexByte p '/' with
    | some idx =>
        if idx ≤ p.length then some (p.take idx, p.drop idx) else none
    | none => some (p, [])
  else none

/-- Go `type key int`, the private context-key type of the package. -/
abbrev key := Int

/-- Go `const pathKey key = 0`. -/
def pathKey : key := 0

/-- Go `const requestIDKey key = 1`. -/
def requestIDKey : key := 1

/-- A request context: a chain of key/value bindings, newest first. All
values the package stores are strings. -/
abbrev Ctx := List (key × List Char)

/-- Model of Go `context.WithValue`: wrap the existing chain with a new
binding, never mutating the chain in place. -/
def withValue (ctx : Ctx) (k : key) (v : List Char) : Ctx :=
  (k, v) :: ctx

/-- Model of Go `Context.Value`: the innermost (first) binding for the
key, or `none` (Go's nil) when the key is unset. -/
def ctxValue : Ctx → key → Option (List Char)
  | [], _ => none
  | (k', v) :: rest, k => if k' = k then some v else ctxValue rest k

/-- The fields of `*http.Request` that the package touches, plus the
fields `RequestLogger` reads, so frame properties are statable. -/
structure Request where
  urlPath : List Char
  method : List Char
  remoteAddr : List Char
  userAgent : List Char
  ctx : Ctx
  deriving DecidableEq

/-- Embedding of `Shift`: apply `shift` to the request's path, write the
rest back into the path field, and return the segment. The Go in-place
mutation is modelled by returning the updated request. -/
def Shift (req : Request) : List Char × Request :=
  ((shift req.urlPath).1, { req with urlPath := (shift req.urlPath).2 })

/-- Embedding of `WithPath`: a no-op returning `req` itself when the
context already holds a value under `pathKey`; otherwise returns a
request carrying the context extended with the current path. -/
def WithPath (req : Request) : Request :=
  match ctxValue req.ctx pathKey with
  | some _ => req
  | none => { req with ctx := withValue req.ctx pathKey req.urlPath }

/-- Embedding of `Path`: the value stored under `pathKey`, or the empty
string when absent. -/
def Path (req : Request) : List Char :=
  match ctxValue req.ctx pathKey with
  | none => []
  | some v => v

/-- Embedding of `WithRequestID`: a no-op returning `req` itself when the
context already holds a value under `requestIDKey`; otherwise returns a
request carrying the context extended with the supplied identifier. -/
def WithRequestID (req : Request) (id : List Char) : Request :=
  match ctxValue req.ctx requestIDKey with
  | some _ => req
  | none => { req with ctx := withValue req.ctx requestIDKey id }

/-- Embedding of `RequestID`: the value stored under `requestIDKey`, or
the empty string when absent. -/
def RequestID (req : Request) : List Char :=
  match ctxValue req.ctx requestIDKey with
  | none => []
  | some v => v

/-- Iterated `Shift`: `n` successive calls on the same request. -/
def shiftN : Nat → Request → Request
  | 0, req => req
  | n + 1, req => shiftN n (Shift req).2

/-- An index found by `indexByte` is within the list. -/
theorem indexByte_le_length (b : Char) :
    ∀ (l : List Char) (i : Nat), indexByte l b = some i → i ≤ l.length := by
  intro l
  induction l with
  | nil => intro i h; simp [indexByte] at h
  | cons c cs ih =>
    intro i h
    by_cases hc : c = b
    · simp [indexByte, hc] at h
      omega
    · simp [indexByte, hc] at h
      obtain ⟨j, hj, hji⟩ := h
      have := ih j hj
      simp only [List.length_cons]
      omega

/-- Outside the two trivial cases, the segment and the rest concatenate
to the path with its leading character removed. -/
theorem shift_seg_append_rest (path : List Char)
    (h : ¬(path = [] ∨ path = ['/'])) :
    (shift path).1 ++ (shift path).2 = path.drop 1 := by
  unfold shift
  rw [if_neg h]
  simp only []
  split
  · exact List.take_append_drop _ _
  · simp

/-- C1: the pure function `shift` satisfies the spec's literal edge-case
table: `shift("") = ("", "")`, `shift("/") = ("", "/")`,
`shift("/xyz") = ("xyz", "")`, `shift("/xyz/") = ("xyz", "/")`,
`shift("/abc/xyz") = ("abc", "/xyz")`,
`shift("/abc/xyz/") = ("abc", "/xyz/")`, and
`shift("/abc/xyz/t") = ("abc", "/xyz/t")`. -/
theorem shift_edge_table :
    shift "".data = ("".data, "".data) ∧
    shift "/".data = ("".data, "/".data) ∧
    shift "/xyz".data = ("xyz".data, "".data) ∧
    shift "/xyz/".data = ("xyz".data, "/".data) ∧
    shift "/abc/xyz".data = ("abc".data, "/xyz".data) ∧
    shift "/abc/xyz/".data = ("abc".data, "/xyz/".data) ∧
    shift "/abc/xyz/t".data = ("abc".data, "/xyz/t".data) := by
  decide

/-- C2 counterexample: the input `"//"` satisfies the precondition (it
begins with `"/"`), `shift` returns an empty segment, yet the rest is
`"/"`, not the input — so an empty segment does not make the call a
no-op, refuting the claim as stated. -/
theorem shift_roundtrip_cex :
    ("//".data = [] ∨ "//".data.head? = some '/') ∧
    (shift "//".data).1 = [] ∧
    (shift "//".data).2 ≠ "//".data := by
  decide

/-- C2 amended: for every path that is empty or begins with `"/"`, if
`shift` returns a nonempty segment then `"/" ++ seg ++ rest` equals the
input; if the segment is empty then either the rest equals the input
(the inputs `""` and `"/"`) or `"/" ++ rest` equals the input (inputs
beginning with `"//"`). -/
theorem shift_roundtrip (p : List Char)
    (hp : p = [] ∨ p.head? = some '/') :
    ((shift p).1 ≠ [] → '/' :: ((shift p).1 ++ (shift p).2) = p) ∧
    ((shift p).1 = [] → (shift p).2 = p ∨ '/' :: (shift p).2 = p) := by
  by_cases h : p = [] ∨ p = ['/']
  · constructor
    · intro hne
      exfalso
      apply hne
      rcases h with h | h <;> simp [shift, h]
    · intro _
      left
      rcases h with h | h <;> simp [shift, h]
  · have hcons : p = '/' :: p.drop 1 := by
      rcases hp with rfl | hp
      · exact absurd (Or.inl rfl) h
      · cases p with
        | nil => simp at hp
        | cons c cs =>
          simp only [List.head?_cons, Option.some.injEq] at hp
          simp [hp]
    have happ := shift_seg_append_rest p h
    constructor
    · intro _
      rw [happ]
      exact hcons.symm
    · intro hseg
      right
      rw [hseg] at happ
      simp only [List.nil_append] at happ
      rw [happ]
      exact hcons.symm

/-- C2 witness: the amended round-trip property instantiated at the
concrete path `"/abc/xyz"`. -/
theorem shift_roundtrip_witness :
    ("/abc/xyz".data = [] ∨ "/abc/xyz".data.head? = some '/') ∧
    (((shift "/abc/xyz".data).1 ≠ [] →
        '/' :: ((shift "/abc/xyz".data).1 ++ (shift "/abc/xyz".data).2) =
          "/abc/xyz".data) ∧
     ((shift "/abc/xyz".data).1 = [] →
        (shift "/abc/xyz".data).2 = "/abc/xyz".data ∨
          '/' :: (shift "/abc/xyz".data).2 = "/abc/xyz".data)) :=
  ⟨by decide, shift_roundtrip "/abc/xyz".data (by decide)⟩

/-- C7: `shift` never slices out of bounds and never fails: the
bounds-checked variant, in which every slicing operation of the Go
source carries its run-time bound, succeeds on every input string and
returns exactly the pair `shift` returns. -/
theorem shift_total_safe (p : List Char) : shiftChecked p = some (shift p) := by
  unfold shiftChecked shift
  by_cases h : p = [] ∨ p = ['/']
  · rw [if_pos h, if_pos h]
  · have hlen : 1 ≤ p.length := by
      rcases p with _ | ⟨c, cs⟩
      · exact absurd (Or.inl rfl) h
      · simp
    rw [if_neg h, if_neg h, if_pos hlen]
    simp only []
    split
    case _ idx hidx =>
      rw [if_pos (indexByte_le_length '/' _ idx hidx)]
    case _ => rfl

/-- C10: for every path beginning with `"//"`, `shift` returns an empty
segment together with the input minus its first character, which is
different from the input — the call is not a no-op. -/
theorem shift_double_slash (t : List Char) :
    shift ('/' :: '/' :: t) = ([], ('/' :: '/' :: t).drop 1) ∧
    (shift ('/' :: '/' :: t)).2 ≠ '/' :: '/' :: t := by
  have hs : shift ('/' :: '/' :: t) = ([], '/' :: t) := by
    unfold shift
    rw [if_neg (by simp)]
    simp [indexByte]
  refine ⟨by simpa using hs, ?_⟩
  rw [hs]
  intro hcontra
  have := congrArg List.length hcontra
  simp at this

/-- Looking up a key on a chain just extended with that key yields the
new value. -/
theorem ctxValue_withValue_self (ctx : Ctx) (k : key) (v : List Char) :
    ctxValue (withValue ctx k v) k = some v := by
  simp [withValue, ctxValue]

/-- When the path key is present, `WithPath` takes its no-op branch and
returns its argument. -/
theorem WithPath_of_some (req : Request) (v : List Char)
    (h : ctxValue req.ctx pathKey = some v) : WithPath req = req := by
  unfold WithPath
  rw [h]

/-- When the path key is absent, `WithPath` extends the context with the
current path. -/
theorem WithPath_of_none (req : Request)
    (h : ctxValue req.ctx pathKey = none) :
    WithPath req = { req with ctx := withValue req.ctx pathKey req.urlPath } := by
  unfold WithPath
  rw [h]

/-- When the identifier key is present, `WithRequestID` takes its no-op
branch and returns its argument. -/
theorem WithRequestID_of_some (req : Request) (id v : List Char)
    (h : ctxValue req.ctx requestIDKey = some v) :
    WithRequestID req id = req := by
  unfold WithRequestID
  rw [h]

/-- When the identifier key is absent, `WithRequestID` extends the
context with the supplied identifier. -/
theorem WithRequestID_of_none (req : Request) (id : List Char)
    (h : ctxValue req.ctx requestIDKey = none) :
    WithRequestID req id = { req with ctx := withValue req.ctx requestIDKey id } := by
  unfold WithRequestID
  rw [h]

/-- Iterated shifting never changes a request's context. -/
theorem shiftN_ctx (n : Nat) : ∀ r : Request, (shiftN n r).ctx = r.ctx := by
  induction n with
  | zero => intro r; rfl
  | succ k ih => intro r; exact ih _

/-- C3: after `WithPath` captures the path of a request whose context
does not yet hold one, `Path` returns that captured path, and the value
is unchanged by any number of subsequent `Shift` calls, which mutate
only the live path field. -/
theorem path_preserved_by_shift (req : Request) (n : Nat)
    (h : ctxValue req.ctx pathKey = none) :
    Path (shiftN n (WithPath req)) = req.urlPath := by
  have h1 : Path (shiftN n (WithPath req)) = Path (WithPath req) := by
    unfold Path
    rw [shiftN_ctx]
  rw [h1, WithPath_of_none req h]
  unfold Path
  rw [ctxValue_withValue_self]

/-- C3 witness: a request with path `"/abc/xyz"` and an untouched
context, shifted twice after `WithPath`. -/
theorem path_preserved_by_shift_witness :
    ctxValue (Request.mk "/abc/xyz".data "GET".data [] [] []).ctx pathKey = none ∧
    Path (shiftN 2 (WithPath (Request.mk "/abc/xyz".data "GET".data [] [] []))) =
      (Request.mk "/abc/xyz".data "GET".data [] [] []).urlPath :=
  ⟨by decide, path_preserved_by_shift (Request.mk "/abc/xyz".data "GET".data [] [] []) 2 (by decide)⟩

/-- C4: both "with" operations are idempotent: on a request whose
context already holds the corresponding key they return their argument
unchanged (the model of Go's reference-equality no-op branch), and in
particular a second call applied to the result of a first one returns
that result unchanged, discarding any new identifier. -/
theorem with_idempotent (req : Request) (id1 id2 : List Char) :
    (ctxValue req.ctx pathKey ≠ none → WithPath req = req) ∧
    (ctxValue req.ctx requestIDKey ≠ none → WithRequestID req id1 = req) ∧
    WithPath (WithPath req) = WithPath req ∧
    WithRequestID (WithRequestID req id1) id2 = WithRequestID req id1 := by
  have hp : ∀ r : Request, ctxValue r.ctx pathKey ≠ none → WithPath r = r := by
    intro r hr
    cases hv : ctxValue r.ctx pathKey with
    | none => exact absurd hv hr
    | some v => exact WithPath_of_some r v hv
  have hq : ∀ (r : Request) (i : List Char),
      ctxValue r.ctx requestIDKey ≠ none → WithRequestID r i = r := by
    intro r i hr
    cases hv : ctxValue r.ctx requestIDKey with
    | none => exact absurd hv hr
    | some v => exact WithRequestID_of_some r i v hv
  refine ⟨hp req, hq req id1, ?_, ?_⟩
  · cases hv : ctxValue req.ctx pathKey with
    | some v => rw [WithPath_of_some req v hv, WithPath_of_some req v hv]
    | none =>
      apply hp
      rw [WithPath_of_none req hv]
      simp [ctxValue_withValue_self]
  · cases hv : ctxValue req.ctx requestIDKey with
    | some v => rw [WithRequestID_of_some req id1 v hv, WithRequestID_of_some req id2 v hv]
    | none =>
      apply hq
      rw [WithRequestID_of_none req id1 hv]
      simp [ctxValue_withValue_self]

/-- C4 witness: requests whose contexts already hold the keys are
returned unchanged, and repeated "with" calls collapse. -/
theorem with_idempotent_witness :
    WithPath (Request.mk ['/'] [] [] [] [(pathKey, ['a'])]) =
      Request.mk ['/'] [] [] [] [(pathKey, ['a'])] ∧
    WithRequestID (Request.mk ['/'] [] [] [] [(requestIDKey, ['b'])]) ['x'] =
      Request.mk ['/'] [] [] [] [(requestIDKey, ['b'])] ∧
    WithPath (WithPath (Request.mk ['/'] [] [] [] [])) =
      WithPath (Request.mk ['/'] [] [] [] []) ∧
    WithRequestID (WithRequestID (Request.mk ['/'] [] [] [] []) ['x']) ['y'] =
      WithRequestID (Request.mk ['/'] [] [] [] []) ['x'] :=
  ⟨(with_idempotent (Request.mk ['/'] [] [] [] [(pathKey, ['a'])]) ['x'] ['y']).1 (by decide),
   (with_idempotent (Request.mk ['/'] [] [] [] [(requestIDKey, ['b'])]) ['x'] ['y']).2.1 (by decide),
   (with_idempotent (Request.mk ['/'] [] [] [] []) ['x'] ['y']).2.2.1,
   (with_idempotent (Request.mk ['/'] [] [] [] []) ['x'] ['y']).2.2.2⟩

/-- C5: first write wins for request identifiers: on a request with no
identifier set, storing `r1` and then attempting to store `r2` leaves
`RequestID` reporting `r1`. -/
theorem requestID_first_write_wins (req : Request) (r1 r2 : List Char)
    (h : ctxValue req.ctx requestIDKey = none) :
    RequestID (WithRequestID (WithRequestID req r1) r2) = r1 := by
  rw [WithRequestID_of_none req r1 h]
  rw [WithRequestID_of_some _ r2 r1 (ctxValue_withValue_self _ _ _)]
  unfold RequestID
  rw [ctxValue_withValue_self]

/-- C5 witness: identifiers `"r1"` then `"r2"` on a fresh request. -/
theorem requestID_first_write_wins_witness :
    ctxValue (Request.mk [] [] [] [] []).ctx requestIDKey = none ∧
    RequestID (WithRequestID (WithRequestID (Request.mk [] [] [] [] []) "r1".data) "r2".data) =
      "r1".data :=
  ⟨by decide, requestID_first_write_wins (Request.mk [] [] [] [] []) "r1".data "r2".data (by decide)⟩

/-- C6: on a request whose context holds neither key, `Path` and
`RequestID` both return the empty string; both getters are total
functions and cannot fail. -/
theorem getters_default_empty (req : Request)
    (h1 : ctxValue req.ctx pathKey = none)
    (h2 : ctxValue req.ctx requestIDKey = none) :
    Path req = [] ∧ RequestID req = [] := by
  unfold Path RequestID
  rw [h1, h2]
  exact ⟨rfl, rfl⟩

/-- C6 witness: a request with an untouched context. -/
theorem getters_default_empty_witness :
    ctxValue (Request.mk ['/'] [] [] [] []).ctx pathKey = none ∧
    ctxValue (Request.mk ['/'] [] [] [] []).ctx requestIDKey = none ∧
    Path (Request.mk ['/'] [] [] [] []) = [] ∧
    RequestID (Request.mk ['/'] [] [] [] []) = [] :=
  ⟨by decide, by decide,
   (getters_default_empty (Request.mk ['/'] [] [] [] []) (by decide) (by decide)).1,
   (getters_default_empty (Request.mk ['/'] [] [] [] []) (by decide) (by decide)).2⟩

/-- C8: mutation asymmetry. `Shift` rewrites only the URL path field,
leaving the context and all other fields untouched; `WithPath` and
`WithRequestID` either return their argument unchanged or return a new
request whose context wraps the old one and whose other fields are
untouched. -/
theorem frame_asymmetry (req : Request) (id : List Char) :
    ((Shift req).2.ctx = req.ctx ∧
     (Shift req).2.method = req.method ∧
     (Shift req).2.remoteAddr = req.remoteAddr ∧
     (Shift req).2.userAgent = req.userAgent ∧
     (Shift req).2.urlPath = (shift req.urlPath).2) ∧
    (WithPath req = req ∨
      ((WithPath req).ctx = withValue req.ctx pathKey req.urlPath ∧
       (WithPath req).urlPath = req.urlPath ∧
       (WithPath req).method = req.method ∧
       (WithPath req).remoteAddr = req.remoteAddr ∧
       (WithPath req).userAgent = req.userAgent)) ∧
    (WithRequestID req id = req ∨
      ((WithRequestID req id).ctx = withValue req.ctx requestIDKey id ∧
       (WithRequestID req id).urlPath = req.urlPath ∧
       (WithRequestID req id).method = req.method ∧
       (WithRequestID req id).remoteAddr = req.remoteAddr ∧
       (WithRequestID req id).userAgent = req.userAgent)) := by
  refine ⟨⟨rfl, rfl, rfl, rfl, rfl⟩, ?_, ?_⟩
  · cases hv : ctxValue req.ctx pathKey with
    | some v => exact Or.inl (WithPath_of_some req v hv)
    | none =>
      right
      rw [WithPath_of_none req hv]
      exact ⟨rfl, rfl, rfl, rfl, rfl⟩
  · cases hv : ctxValue req.ctx requestIDKey with
    | some v => exact Or.inl (WithRequestID_of_some req id v hv)
    | none =>
      right
      rw [WithRequestID_of_none req id hv]
      exact ⟨rfl, rfl, rfl, rfl, rfl⟩

/-- C9: tagging a fresh request with the empty identifier does set the
key — every later `WithRequestID` call is a no-op returning its
argument — yet `RequestID` returns the empty string on the result,
exactly as it does on a request never tagged at all. -/
theorem empty_id_edge (req : Request) (id : List Char)
    (h : ctxValue req.ctx requestIDKey = none) :
    ctxValue (WithRequestID req []).ctx requestIDKey = some [] ∧
    WithRequestID (WithRequestID req []) id = WithRequestID req [] ∧
    RequestID (WithRequestID req []) = [] ∧
    RequestID req = [] := by
  rw [WithRequestID_of_none req [] h]
  refine ⟨ctxValue_withValue_self _ _ _, ?_, ?_, ?_⟩
  · exact WithRequestID_of_some _ id [] (ctxValue_withValue_self _ _ _)
  · unfold RequestID
    rw [ctxValue_withValue_self]
  · unfold RequestID
    rw [h]

/-- C9 witness: a fresh request tagged with the empty identifier, then
re-tagged with `"x"`. -/
theorem empty_id_edge_witness :
    ctxValue (Request.mk [] [] [] [] []).ctx requestIDKey = none ∧
    (ctxValue (WithRequestID (Request.mk [] [] [] [] []) []).ctx requestIDKey = some [] ∧
     WithRequestID (WithRequestID (Request.mk [] [] [] [] []) []) "x".data =
       WithRequestID (Request.mk [] [] [] [] []) [] ∧
     RequestID (WithRequestID (Request.mk [] [] [] [] []) []) = [] ∧
     RequestID (Request.mk [] [] [] [] []) = []) :=
  ⟨by decide, empty_id_edge (Request.mk [] [] [] [] []) "x".data (by decide)⟩

end Httpx
